import Mathlib

set_option maxRecDepth 8192

/-!
Verification of the `bo_nalog_client` repository (file `bo_nalog_client/client.py`).

The client resolves an organization from a search response, fetches its
financial reports (BFO), and extracts a (year, revenue, profit) triple from the
latest report.  The pure core — `resolve_org_from_search`, `_clean_html`,
`_clean_non_letters`, `_to_num`, `_to_date`, `_best_correction`,
`_latest_report`, `extract_last_year_revenue_profit` — is shallowly embedded
below over a model of JSON-decodable Python values.  Fallible operations
(attribute errors, `int()` / `float()` conversion errors, raised exceptions
such as `ValueError` and `AmbiguousSearchError`) are modelled with `Except`.
-/

/-- Model of a Python float: a finite value (abstracted as an exact rational —
IEEE-754 rounding of finite values is immaterial to the properties proved
here), positive/negative infinity, or NaN. -/
inductive PyFloat where
  | finite (q : ℚ)
  | inf
  | negInf
  | nan
deriving DecidableEq, Repr

/-- Model of a JSON-decodable Python value, the domain that flows through the
client after `resp.json()`: `None`, `bool`, `int`, `float`, `str`, `list`,
`dict` (modelled as an association list with distinct keys). -/
inductive PyVal where
  | none
  | bool (b : Bool)
  | int (n : Int)
  | float (f : PyFloat)
  | str (s : String)
  | list (xs : List PyVal)
  | dict (kvs : List (String × PyVal))

/-- The exceptions the embedded code can raise.  Messages of `ValueError` from
`int()` and of `AmbiguousSearchError` are reproduced exactly; other messages
are abbreviated. -/
inductive PyErr where
  | valueError (msg : String)
  | typeError (msg : String)
  | attributeError (msg : String)
  | indexError (msg : String)
  | overflowError (msg : String)
  | ambiguousSearchError (msg : String)
deriving DecidableEq, Repr

/-- Lookup in a Python dict (association list, keys assumed distinct). -/
def dictGet : List (String × PyVal) → String → Option PyVal
  | [], _ => Option.none
  | (k, v) :: rest, key => if k = key then some v else dictGet rest key

/-- Python truthiness (`bool(v)`). -/
def pyTruthy : PyVal → Bool
  | PyVal.none => false
  | PyVal.bool b => b
  | PyVal.int n => decide (n ≠ 0)
  | PyVal.float (PyFloat.finite q) => decide (q ≠ 0)
  | PyVal.float _ => true
  | PyVal.str s => decide (s ≠ "")
  | PyVal.list xs => !xs.isEmpty
  | PyVal.dict kvs => !kvs.isEmpty

def isDict : PyVal → Bool
  | PyVal.dict _ => true
  | _ => false

def isStr : PyVal → Bool
  | PyVal.str _ => true
  | _ => false

/-- `isinstance(v, int)` as used on `correctionVersion` (`bool` is a subclass
of `int` in Python), together with the integer value. -/
def pyAsInt : PyVal → Option Int
  | PyVal.int n => some n
  | PyVal.bool b => some (if b then 1 else 0)
  | _ => Option.none

/-- Python `v == n` for an integer literal `n` (numeric cross-type equality;
non-numeric values are never equal to an int). -/
def pyEqInt (v : PyVal) (n : Int) : Bool :=
  match v with
  | PyVal.int m => decide (m = n)
  | PyVal.bool b => decide ((if b then (1 : Int) else 0) = n)
  | PyVal.float (PyFloat.finite q) => decide (q = (n : ℚ))
  | PyVal.float _ => false
  | _ => false

/-- Python `v > n` for an integer literal `n`; raises `TypeError` when `v` is
not a number. -/
def pyGtInt (v : PyVal) (n : Int) : Except PyErr Bool :=
  match v with
  | PyVal.int m => Except.ok (decide (n < m))
  | PyVal.bool b => Except.ok (decide (n < (if b then (1 : Int) else 0)))
  | PyVal.float (PyFloat.finite q) => Except.ok (decide ((n : ℚ) < q))
  | PyVal.float PyFloat.inf => Except.ok true
  | PyVal.float PyFloat.negInf => Except.ok false
  | PyVal.float PyFloat.nan => Except.ok false
  | _ => Except.error (PyErr.typeError "unorderable types")

/-- Python `v - n` for an integer literal `n`.  Only reached on numeric `v`
(the source subtracts only after a successful `>` comparison); the non-numeric
fallback is arbitrary. -/
def pySubInt (v : PyVal) (n : Int) : PyVal :=
  match v with
  | PyVal.int m => PyVal.int (m - n)
  | PyVal.bool b => PyVal.int ((if b then 1 else 0) - n)
  | PyVal.float (PyFloat.finite q) => PyVal.float (PyFloat.finite (q - (n : ℚ)))
  | PyVal.float f => PyVal.float f
  | _ => PyVal.none

/-- Python `v.get(key, default)`: `AttributeError` unless `v` is a dict. -/
def pyGet (v : PyVal) (key : String) (dflt : PyVal) : Except PyErr PyVal :=
  match v with
  | PyVal.dict kvs => Except.ok ((dictGet kvs key).getD dflt)
  | _ => Except.error (PyErr.attributeError "object has no attribute get")

/-- Total variant of `pyGet` used in analysis definitions; agrees with `pyGet`
on dicts. -/
def dGetD (v : PyVal) (key : String) (dflt : PyVal) : PyVal :=
  match v with
  | PyVal.dict kvs => (dictGet kvs key).getD dflt
  | _ => dflt

/-- Iteration / slicing of a value.  The client only ever iterates JSON
arrays; iteration of strings and dicts is abstracted to a `TypeError` like all
other non-list values. -/
def pySeq : PyVal → Except PyErr (List PyVal)
  | PyVal.list xs => Except.ok xs
  | _ => Except.error (PyErr.typeError "object is not iterable")

/-- Python `v[i]` for a non-negative index: `IndexError` when out of range,
`TypeError` on non-list values (string indexing is not exercised here). -/
def pyIndex (v : PyVal) (i : Nat) : Except PyErr PyVal :=
  match v with
  | PyVal.list xs =>
    match xs.get? i with
    | some x => Except.ok x
    | Option.none => Except.error (PyErr.indexError "list index out of range")
  | _ => Except.error (PyErr.typeError "object is not subscriptable")

/-! ### `int()` and `float()` string conversion -/

/-- ASCII whitespace stripped by Python's `int()`/`float()` (further Unicode
whitespace is not modelled). -/
def isPyWs (c : Char) : Bool :=
  decide (c.toNat = 32 ∨ c.toNat = 9 ∨ c.toNat = 10 ∨ c.toNat = 13 ∨
          c.toNat = 11 ∨ c.toNat = 12)

def trimWs (xs : List Char) : List Char :=
  ((xs.dropWhile isPyWs).reverse.dropWhile isPyWs).reverse

/-- Consume a maximal run of decimal digits, allowing single underscores
between digits (PEP 515); returns (value, digit count, rest), or `none` when
an underscore is misplaced. -/
def digitsGo : List Char → Nat → Nat → Option (Nat × Nat × List Char)
  | '_' :: c :: rest, acc, cnt =>
    if c.isDigit then digitsGo rest (acc * 10 + (c.toNat - 48)) (cnt + 1)
    else Option.none
  | ['_'], _, _ => Option.none
  | c :: rest, acc, cnt =>
    if c.isDigit then digitsGo rest (acc * 10 + (c.toNat - 48)) (cnt + 1)
    else some (acc, cnt, c :: rest)
  | [], acc, cnt => some (acc, cnt, [])

def takeDigits : List Char → Option (Nat × Nat × List Char)
  | c :: rest => if c.isDigit then digitsGo rest (c.toNat - 48) 1 else Option.none
  | [] => Option.none

/-- Python `int(s)` on a string: optional surrounding whitespace, optional
sign, then decimal digits (with PEP 515 underscores); `none` on failure. -/
def pyIntOfStr (s : String) : Option Int :=
  let t := trimWs s.toList
  match t with
  | '+' :: rest =>
    match takeDigits rest with
    | some (v, _, []) => some (v : Int)
    | _ => Option.none
  | '-' :: rest =>
    match takeDigits rest with
    | some (v, _, []) => some (-(v : Int))
    | _ => Option.none
  | _ =>
    match takeDigits t with
    | some (v, _, []) => some (v : Int)
    | _ => Option.none

/-- Overflow threshold of IEEE-754 binary64: converting an int (or parsing a
decimal string) whose magnitude rounds to at least `2^1024` overflows; with
round-to-nearest-even that happens exactly at `2^1024 - 2^970`. -/
def ovfBound : Nat := 2 ^ 1024 - 2 ^ 970

/-- Python `float(n)` on an int: raises `OverflowError` when the value is too
large for a double (the finite result is abstracted as an exact rational). -/
def pyFloatOfInt (n : Int) : Except PyErr PyFloat :=
  if n.natAbs < ovfBound then Except.ok (PyFloat.finite (n : ℚ))
  else Except.error (PyErr.overflowError "int too large to convert to float")

/-- Exponent part of a float literal. -/
def parseExpQ : List Char → ℚ → Option ℚ
  | [], q => some q
  | c :: rest, q =>
    if c = 'e' ∨ c = 'E' then
      let sr : Bool × List Char :=
        match rest with
        | '+' :: r => (false, r)
        | '-' :: r => (true, r)
        | _ => (false, rest)
      match takeDigits sr.2 with
      | some (e, _, []) => some (if sr.1 then q / 10 ^ e else q * 10 ^ e)
      | _ => Option.none
    else Option.none

/-- Unsigned decimal float literal: `D [. [D]] [exp]` or `. D [exp]`. -/
def parseDecimalQ (xs : List Char) : Option ℚ :=
  match xs with
  | '.' :: rest =>
    match takeDigits rest with
    | some (v, n, rest2) => parseExpQ rest2 ((v : ℚ) / 10 ^ n)
    | Option.none => Option.none
  | _ =>
    match takeDigits xs with
    | some (v, _, rest2) =>
      match rest2 with
      | '.' :: rest3 =>
        match rest3 with
        | c :: _ =>
          if c.isDigit then
            match takeDigits rest3 with
            | some (f, m, rest4) => parseExpQ rest4 ((v : ℚ) + (f : ℚ) / 10 ^ m)
            | Option.none => Option.none
          else parseExpQ rest3 (v : ℚ)
        | [] => some (v : ℚ)
      | _ => parseExpQ rest2 (v : ℚ)
    | Option.none => Option.none

def toLowerAscii (c : Char) : Char :=
  if 65 ≤ c.toNat ∧ c.toNat ≤ 90 then Char.ofNat (c.toNat + 32) else c

/-- Python `float(s)` on a string: whitespace, optional sign, then either an
`inf`/`infinity`/`nan` form (case-insensitive) or a decimal literal; a decimal
value too large for a double overflows to infinity (never raises).  `none`
models the `ValueError` the caller catches. -/
def pyFloatOfStr (s : String) : Option PyFloat :=
  let t := trimWs s.toList
  let sr : Bool × List Char :=
    match t with
    | '+' :: rest => (false, rest)
    | '-' :: rest => (true, rest)
    | _ => (false, t)
  let low := sr.2.map toLowerAscii
  if low = ['i', 'n', 'f'] ∨ low = "infinity".toList then
    some (if sr.1 then PyFloat.negInf else PyFloat.inf)
  else if low = ['n', 'a', 'n'] then some PyFloat.nan
  else
    match parseDecimalQ sr.2 with
    | some q =>
      some (if (ovfBound : ℚ) ≤ q then (if sr.1 then PyFloat.negInf else PyFloat.inf)
            else PyFloat.finite (if sr.1 then -q else q))
    | Option.none => Option.none

/-- Python `str(v)`.  Scalar values are rendered exactly; the repr of
containers and of non-integral finite floats (shortest round-trip form) is
abstracted — every abstracted rendering is still not `int()`-parseable, like
its Python counterpart. -/
def pyStr : PyVal → String
  | PyVal.none => "None"
  | PyVal.bool true => "True"
  | PyVal.bool false => "False"
  | PyVal.int n => toString n
  | PyVal.float (PyFloat.finite q) =>
    if q.den = 1 then toString q.num ++ ".0"
    else toString q.num ++ "/" ++ toString q.den
  | PyVal.float PyFloat.inf => "inf"
  | PyVal.float PyFloat.negInf => "-inf"
  | PyVal.float PyFloat.nan => "nan"
  | PyVal.str s => s
  | PyVal.list _ => "[...]"
  | PyVal.dict _ => "\x7b...\x7d"

/-- A single-quote character, used in `int()` error messages. -/
def sglQuote : String := String.singleton (Char.ofNat 39)

def intErrMsg (t : String) : String :=
  "invalid literal for int() with base 10: " ++ sglQuote ++ t ++ sglQuote

/-- Python `int(str(v))`: `str` never fails, `int` raises `ValueError` on an
unparseable literal. -/
def py_int_str (v : PyVal) : Except PyErr Int :=
  match pyIntOfStr (pyStr v) with
  | some n => Except.ok n
  | Option.none => Except.error (PyErr.valueError (intErrMsg (pyStr v)))

/-! ### String cleaning helpers (`_clean_html`, `_clean_non_letters`) -/

/-- Match one HTML character reference after a `&`.  `html.unescape` knows the
full HTML5 entity table (and bare references without `;`); the model covers
the common quoted subset — unmatched references pass through unchanged, as in
the source. -/
def entMatch : List Char → Option (Char × List Char)
  | 'q' :: 'u' :: 'o' :: 't' :: ';' :: rest => some (Char.ofNat 34, rest)
  | 'a' :: 'm' :: 'p' :: ';' :: rest => some (Char.ofNat 38, rest)
  | 'l' :: 't' :: ';' :: rest => some (Char.ofNat 60, rest)
  | 'g' :: 't' :: ';' :: rest => some (Char.ofNat 62, rest)
  | 'n' :: 'b' :: 's' :: 'p' :: ';' :: rest => some (Char.ofNat 160, rest)
  | '#' :: '3' :: '9' :: ';' :: rest => some (Char.ofNat 39, rest)
  | _ => Option.none

/-- `html.unescape`, fuelled by the input length (each step consumes at least
one character, so the fuel never runs out on `unescapeStr`'s call). -/
def unescapeAux : Nat → List Char → List Char
  | 0, xs => xs
  | _ + 1, [] => []
  | n + 1, c :: rest =>
    if c = Char.ofNat 38 then
      match entMatch rest with
      | some (ch, rest2) => ch :: unescapeAux n rest2
      | Option.none => c :: unescapeAux n rest
    else c :: unescapeAux n rest

def unescapeStr (s : String) : String :=
  String.mk (unescapeAux s.toList.length s.toList)

/-- After a `<`: the regex `<[^>]+>` matches up to the first later `>` with at
least one character in between. -/
def tagEnd : List Char → Option (List Char)
  | [] => Option.none
  | c :: rest => if c = '>' then Option.none else skipToGt rest
where
  skipToGt : List Char → Option (List Char)
    | [] => Option.none
    | c :: rest => if c = '>' then some rest else skipToGt rest

/-- `re.sub(r'<[^>]+>', '', text)`: leftmost non-overlapping removal of tags,
fuelled by the input length. -/
def stripTagsAux : Nat → List Char → List Char
  | 0, xs => xs
  | _ + 1, [] => []
  | n + 1, c :: rest =>
    if c = '<' then
      match tagEnd rest with
      | some rest2 => stripTagsAux n rest2
      | Option.none => c :: stripTagsAux n rest
    else c :: stripTagsAux n rest

def stripTagsStr (s : String) : String :=
  String.mk (stripTagsAux s.toList.length s.toList)

/-- The string-level body of `_clean_html`: decode entities, then remove
tags. -/
def clean_html_str (s : String) : String :=
  stripTagsStr (unescapeStr s)

/-- `_clean_html` as called on an arbitrary field value: the leading
`if not text` guard returns `""` for every falsy value; a truthy non-string
raises (`unescape` needs a string). -/
def _clean_html (v : PyVal) : Except PyErr String :=
  if pyTruthy v = false then Except.ok ""
  else
    match v with
    | PyVal.str s => Except.ok (clean_html_str s)
    | _ => Except.error (PyErr.typeError "expected a string")

/-- The character class `[а-яёА-ЯЁa-zA-Z]` kept by `_clean_non_letters`. -/
def isKeptLetter (c : Char) : Bool :=
  decide ((97 ≤ c.toNat ∧ c.toNat ≤ 122) ∨ (65 ≤ c.toNat ∧ c.toNat ≤ 90) ∨
          (0x430 ≤ c.toNat ∧ c.toNat ≤ 0x44F) ∨ c.toNat = 0x451 ∨
          (0x410 ≤ c.toNat ∧ c.toNat ≤ 0x42F) ∨ c.toNat = 0x401)

/-- `str.lower` restricted to ASCII and the Cyrillic range — the only
characters that survive the letter filter. -/
def pyLower (c : Char) : Char :=
  if 65 ≤ c.toNat ∧ c.toNat ≤ 90 then Char.ofNat (c.toNat + 32)
  else if 0x410 ≤ c.toNat ∧ c.toNat ≤ 0x42F then Char.ofNat (c.toNat + 0x20)
  else if c.toNat = 0x401 then Char.ofNat 0x451
  else c

/-- `_clean_non_letters`: drop every non-letter, then lower-case.  (The `if
not text` guard of the source agrees with the filter on `""`.) -/
def clean_non_letters_str (s : String) : String :=
  String.mk ((s.toList.filter isKeptLetter).map pyLower)

/-! ### Organization resolver (`resolve_org_from_search`) -/

/-- One line of the `AmbiguousSearchError` diagnostics:
`f"ID: {org.get('id')}, INN: {org.get('inn')}, Name: {org.get('shortName')}"`. -/
def orgDetailE (org : PyVal) : Except PyErr String := do
  let i ← pyGet org "id" PyVal.none
  let inn ← pyGet org "inn" PyVal.none
  let sn ← pyGet org "shortName" PyVal.none
  Except.ok ("ID: " ++ pyStr i ++ ", INN: " ++ pyStr inn ++ ", Name: " ++ pyStr sn)

def mapDetailsE : List PyVal → Except PyErr (List String)
  | [] => Except.ok []
  | org :: rest => do
    let d ← orgDetailE org
    let ds ← mapDetailsE rest
    Except.ok (d :: ds)

/-- The `AmbiguousSearchError` message built from `totalElements`, the
rendered details of (at most) the first five candidates, and the result of
`total_elements > 5`. -/
def ambMsg (total : PyVal) (details : List String) (gt5 : Bool) : String :=
  let base := "Multiple organizations found (" ++ pyStr total ++
    " total). First few matches:\n" ++ String.intercalate "\n" details
  if gt5 then base ++ "\n... and " ++ pyStr (pySubInt total 5) ++ " more" else base

/-- The exact-match loop: for each candidate, clean its `shortName` from HTML,
then from non-letters, and compare with the cleaned query. -/
def findExact : List PyVal → String → Except PyErr (Option PyVal)
  | [], _ => Except.ok Option.none
  | org :: rest, qc => do
    let sn ← pyGet org "shortName" (PyVal.str "")
    let h ← _clean_html sn
    if clean_non_letters_str h = qc then Except.ok (some org)
    else findExact rest qc

/-- `resolve_org_from_search(search_response, query)`.  Note that the query is
cleaned with `_clean_non_letters` only — it is never passed through
`_clean_html`, unlike the candidates' names. -/
def resolve_org_from_search (resp : List (String × PyVal)) (query : Option String) :
    Except PyErr PyVal :=
  let content := (dictGet resp "content").getD (PyVal.list [])
  let total := (dictGet resp "totalElements").getD (PyVal.int 0)
  if pyEqInt total 0 then
    Except.error (PyErr.valueError "No organizations found for the given query")
  else do
    let gt1 ← pyGtInt total 1
    if gt1 then do
      let matched ←
        match query with
        | some q =>
          if q ≠ "" then do
            let orgs ← pySeq content
            findExact orgs (clean_non_letters_str q)
          else Except.ok Option.none
        | Option.none => Except.ok (Option.none : Option PyVal)
      match matched with
      | some org => Except.ok org
      | Option.none => do
        let orgs ← pySeq content
        let gt5 ← pyGtInt total 5
        let details ← mapDetailsE (orgs.take 5)
        Except.error (PyErr.ambiguousSearchError (ambMsg total details gt5))
    else
      pyIndex content 0

/-! ### Parsing helpers (`_to_num`, `_to_date`) -/

/-- `_to_num`: `''`/`None` → absent; `bool`/`int`/`float` → `float(v)` (an
oversized int raises `OverflowError`); `str` → `float(s)` with `ValueError`
caught to absent; anything else → absent. -/
def _to_num (v : PyVal) : Except PyErr (Option PyFloat) :=
  match v with
  | PyVal.none => Except.ok Option.none
  | PyVal.str s => if s = "" then Except.ok Option.none else Except.ok (pyFloatOfStr s)
  | PyVal.bool b => Except.ok (some (PyFloat.finite (if b then 1 else 0)))
  | PyVal.int n => (pyFloatOfInt n).map some
  | PyVal.float f => Except.ok (some f)
  | _ => Except.ok Option.none

def isLeap (y : Int) : Bool :=
  decide ((y % 4 = 0 ∧ y % 100 ≠ 0) ∨ y % 400 = 0)

def daysIn (y m : Int) : Int :=
  if m = 2 then (if isLeap y then 29 else 28)
  else if m = 4 ∨ m = 6 ∨ m = 9 ∨ m = 11 then 30
  else 31

def dateValid (y m d : Int) : Bool :=
  decide (1 ≤ y ∧ y ≤ 9999 ∧ 1 ≤ m ∧ m ≤ 12 ∧ 1 ≤ d ∧ d ≤ daysIn y m)

/-- `_to_date`: falsy → absent; split on `-`, parse three ints, build a date —
every failure (wrong arity, unparseable part, invalid date, non-string) is
caught to absent. -/
def _to_date (v : PyVal) : Option (Int × Int × Int) :=
  if pyTruthy v = false then Option.none
  else
    match v with
    | PyVal.str s =>
      match s.splitOn "-" with
      | [ys, ms, ds] =>
        match pyIntOfStr ys, pyIntOfStr ms, pyIntOfStr ds with
        | some y, some m, some d =>
          if dateValid y m d then some (y, m, d) else Option.none
        | _, _, _ => Option.none
      | _ => Option.none
    | _ => Option.none

/-! ### Report selection (`_best_correction`, `_latest_report`) -/

/-- The loop of `_best_correction` with its `(best, best_ver)` state. -/
def bestCorrLoop : List PyVal → Option PyVal × Int → Except PyErr (Option PyVal × Int)
  | [], st => Except.ok st
  | tc :: rest, st => do
    let tcd := if pyTruthy tc then tc else PyVal.dict []
    let corr ← pyGet tcd "correction" PyVal.none
    if pyTruthy corr = false then bestCorrLoop rest st
    else do
      let ver ← pyGet corr "correctionVersion" PyVal.none
      match pyAsInt ver with
      | some n =>
        if st.2 ≤ n then bestCorrLoop rest (some corr, n)
        else if st.1.isNone then bestCorrLoop rest (some corr, st.2)
        else bestCorrLoop rest st
      | Option.none =>
        if st.1.isNone then bestCorrLoop rest (some corr, st.2)
        else bestCorrLoop rest st

/-- `_best_correction(type_corrections)`: a falsy argument iterates zero
times (`type_corrections or []`). -/
def _best_correction (tcs : PyVal) : Except PyErr (Option PyVal) :=
  if pyTruthy tcs = false then Except.ok Option.none
  else do
    let xs ← pySeq tcs
    let st ← bestCorrLoop xs (Option.none, -1)
    Except.ok st.1

/-- `key_by_period`: `int(str(r.get("period", 0)))` with every exception
(including `AttributeError` on a non-dict record) caught to the sentinel
`-10^9`. -/
def keyByPeriod (r : PyVal) : Int :=
  match r with
  | PyVal.dict kvs =>
    match pyIntOfStr (pyStr ((dictGet kvs "period").getD (PyVal.int 0))) with
    | some n => n
    | Option.none => -(10 ^ 9)
  | _ => -(10 ^ 9)

/-- `key_by_bfo`: `(to_date(r.get("actualBfoDate")) or date.min, key_by_period(r))`;
the `r.get` here is outside any try block, so a non-dict record raises. -/
def key_by_bfo (r : PyVal) : Except PyErr ((Int × Int × Int) × Int) := do
  let v ← pyGet r "actualBfoDate" PyVal.none
  Except.ok ((_to_date v).getD (1, 1, 1), keyByPeriod r)

def keyPairsE : List PyVal → Except PyErr (List (PyVal × ((Int × Int × Int) × Int)))
  | [] => Except.ok []
  | r :: rest => do
    let k ← key_by_bfo r
    let ps ← keyPairsE rest
    Except.ok ((r, k) :: ps)

def dateLtB (a b : Int × Int × Int) : Bool :=
  decide (a.1 < b.1 ∨ (a.1 = b.1 ∧ (a.2.1 < b.2.1 ∨ (a.2.1 = b.2.1 ∧ a.2.2 < b.2.2))))

def bfoKeyLt (a b : (Int × Int × Int) × Int) : Bool :=
  dateLtB a.1 b.1 || (decide (a.1 = b.1) && decide (a.2 < b.2))

/-- One step of Python `max(..., key=key_by_period)`: a later element replaces
the accumulator only when strictly greater, so the first maximum wins. -/
def pickPeriod (acc x : PyVal) : PyVal :=
  if keyByPeriod acc < keyByPeriod x then x else acc

/-- `_latest_report(reports, prefer_bfo_date)`: empty input → absent;
otherwise the maximum under the selected key (first of ties). -/
def _latest_report (reports : List PyVal) (prefer_bfo_date : Bool) :
    Except PyErr (Option PyVal) :=
  match reports with
  | [] => Except.ok Option.none
  | r :: rest =>
    if prefer_bfo_date then do
      let k0 ← key_by_bfo r
      let ps ← keyPairsE rest
      Except.ok (some (ps.foldl (fun acc p => if bfoKeyLt acc.2 p.2 then p else acc) (r, k0)).1)
    else
      Except.ok (some (rest.foldl pickPeriod r))

/-! ### Extraction (`extract_last_year_revenue_profit`) -/

/-- `extract_last_year_revenue_profit(payload, prefer_bfo_date)`.  The year is
`int(str(rpt.get("period", "0")))` with no exception handler: a present but
unparseable period raises `ValueError`. -/
def extract_last_year_revenue_profit (payload : List PyVal) (prefer_bfo_date : Bool) :
    Except PyErr (Option (Int × Option PyFloat × Option PyFloat)) := do
  let rptO ← _latest_report payload prefer_bfo_date
  match rptO with
  | Option.none => Except.ok Option.none
  | some rpt =>
    if pyTruthy rpt = false then Except.ok Option.none
    else do
      let pv ← pyGet rpt "period" (PyVal.str "0")
      let year ← py_int_str pv
      let tcsv ← pyGet rpt "typeCorrections" (PyVal.list [])
      let corrO ← _best_correction tcsv
      match corrO with
      | Option.none => Except.ok (some (year, Option.none, Option.none))
      | some corr => do
        let frv ← pyGet corr "financialResult" (PyVal.dict [])
        let fr := if pyTruthy frv then frv else PyVal.dict []
        let rvv ← pyGet fr "current2110" PyVal.none
        let revenue ← _to_num rvv
        let pfv ← pyGet fr "current2400" PyVal.none
        let profit ← _to_num pfv
        Except.ok (some (year, revenue, profit))

/-! ### Analysis definitions

Pure companions to the monadic translations above, used to state the claims.
Each agrees with its monadic counterpart on well-shaped ("clean") inputs; the
bridging lemmas are below. -/

def isFiniteF : PyFloat → Bool
  | PyFloat.finite _ => true
  | _ => false

/-- `_clean_html` as a total function: agrees with `_clean_html` whenever the
argument is falsy or a string. -/
def cleanHtmlTot (v : PyVal) : String :=
  if pyTruthy v = false then "" else
    match v with
    | PyVal.str s => clean_html_str s
    | _ => ""

/-- A candidate's `shortName` normalized the way the implementation normalizes
it: HTML cleaning, then letter filtering and lower-casing. -/
def normShort (org : PyVal) : String :=
  clean_non_letters_str (cleanHtmlTot (dGetD org "shortName" (PyVal.str "")))

/-- Modelled from the spec: the query normalization the spec describes —
"stripping HTML markup (decode entities, remove tags) and then stripping every
character that is not a Cyrillic or Latin letter, lower-casing the remainder".
Stated for comparison with the implementation, which cleans the query with
`_clean_non_letters` only. -/
def specQueryNorm (q : String) : String :=
  clean_non_letters_str (clean_html_str q)

/-- A candidate is clean when it is a dict whose `shortName` (if truthy) is a
string — exactly the shapes on which the resolver's loop cannot raise. -/
def orgClean (org : PyVal) : Bool :=
  isDict org &&
    (let sn := dGetD org "shortName" (PyVal.str "")
     !pyTruthy sn || isStr sn)

/-- Pure companion of `orgDetailE`; agrees with it on dicts. -/
def orgDetail (org : PyVal) : String :=
  "ID: " ++ pyStr (dGetD org "id" PyVal.none) ++
  ", INN: " ++ pyStr (dGetD org "inn" PyVal.none) ++
  ", Name: " ++ pyStr (dGetD org "shortName" PyVal.none)

/-- The truthy correction carried by a wrapper, `none` when the wrapper is
skipped (`(tc or {}).get("correction")` falsy). -/
def wrapCorr (tc : PyVal) : Option PyVal :=
  let tcd := if pyTruthy tc then tc else PyVal.dict []
  let c := dGetD tcd "correction" PyVal.none
  if pyTruthy c then some c else Option.none

/-- The int-typed `correctionVersion` of a correction, if any. -/
def verOf (c : PyVal) : Option Int :=
  pyAsInt (dGetD c "correctionVersion" PyVal.none)

/-- The version of a wrapper's correction when it is an int at least `-1` —
the versions that can ever win the `ver >= best_ver` comparison. -/
def goodVer (tc : PyVal) : Option Int :=
  (wrapCorr tc).bind (fun c =>
    (verOf c).bind (fun n => if -1 ≤ n then some n else Option.none))

def goodVers (tcs : List PyVal) : List Int :=
  tcs.filterMap goodVer

/-- Pure step of the `_best_correction` loop; agrees with `bestCorrLoop` on
clean wrappers. -/
def stepP (st : Option PyVal × Int) (tc : PyVal) : Option PyVal × Int :=
  match wrapCorr tc with
  | Option.none => st
  | some corr =>
    match verOf corr with
    | some n =>
      if st.2 ≤ n then (some corr, n)
      else if st.1.isNone then (some corr, st.2)
      else st
    | Option.none => if st.1.isNone then (some corr, st.2) else st

/-- A wrapper is clean when a truthy wrapper is a dict and a truthy correction
is a dict — exactly the shapes on which the loop cannot raise. -/
def tcClean (tc : PyVal) : Bool :=
  (!pyTruthy tc || isDict tc) &&
    (match wrapCorr tc with
     | some c => isDict c
     | Option.none => true)

/-! ### Counterexample theorems -/

/-- C1 counterexample: a selected report with a present but non-integer
`period` does not degrade to year 0 — `int(str("abc"))` raises `ValueError`
out of `extract_last_year_revenue_profit`. -/
theorem C1_malformed_period_counterexample :
    extract_last_year_revenue_profit [PyVal.dict [("period", PyVal.str "abc")]] false
      = Except.error (PyErr.valueError (intErrMsg "abc")) := rfl

/-- C2 counterexample: for the query `"<b>ООО</b>"`, the spec's normalization
(HTML stripping first) equals the first candidate's normalized `shortName`, so
under the claim the first candidate would be returned; but the implementation
cleans the query with `_clean_non_letters` only, the normalized strings
differ, and resolution fails with `AmbiguousSearchError`. -/
theorem C2_query_html_counterexample :
    specQueryNorm "<b>ООО</b>"
        = normShort (PyVal.dict [("shortName", PyVal.str "<b>ООО</b>")]) ∧
    clean_non_letters_str "<b>ООО</b>" ≠ specQueryNorm "<b>ООО</b>" ∧
    resolve_org_from_search
        [("totalElements", PyVal.int 2),
         ("content", PyVal.list
            [PyVal.dict [("shortName", PyVal.str "<b>ООО</b>")],
             PyVal.dict [("shortName", PyVal.str "зао")]])]
        (some "<b>ООО</b>")
      = Except.error (PyErr.ambiguousSearchError
          ("Multiple organizations found (2 total). First few matches:\n" ++
           "ID: None, INN: None, Name: <b>ООО</b>\nID: None, INN: None, Name: зао")) :=
  ⟨rfl, by decide, rfl⟩

/-- C3 counterexample: the extracted revenue can be a non-finite number (the
string `"inf"` parses to infinity), and an oversized integer in a numeric
field propagates an `OverflowError` to the caller. -/
theorem C3_nonfinite_counterexample :
    extract_last_year_revenue_profit
        [PyVal.dict [("period", PyVal.str "2024"),
          ("typeCorrections", PyVal.list [PyVal.dict [("correction", PyVal.dict
            [("correctionVersion", PyVal.int 0),
             ("financialResult", PyVal.dict
               [("current2110", PyVal.str "inf"),
                ("current2400", PyVal.str "")])])]])]] false
      = Except.ok (some (2024, some PyFloat.inf, Option.none)) ∧
    isFiniteF PyFloat.inf = false ∧
    extract_last_year_revenue_profit
        [PyVal.dict [("period", PyVal.str "2024"),
          ("typeCorrections", PyVal.list [PyVal.dict [("correction", PyVal.dict
            [("correctionVersion", PyVal.int 0),
             ("financialResult", PyVal.dict
               [("current2110", PyVal.int (10 ^ 400)),
                ("current2400", PyVal.str "")])])]])]] false
      = Except.error (PyErr.overflowError "int too large to convert to float") :=
  ⟨rfl, rfl, rfl⟩

/-- C4 counterexample: with correction versions `-5` then `-3`, the first
entry is kept through the `elif best is None` fallback (its version loses the
`ver >= best_ver` test against the initial `-1`), so the returned correction
does not carry the highest `correctionVersion`. -/
theorem C4_negative_version_counterexample :
    _best_correction (PyVal.list
        [PyVal.dict [("correction", PyVal.dict [("correctionVersion", PyVal.int (-5))])],
         PyVal.dict [("correction", PyVal.dict [("correctionVersion", PyVal.int (-3))])]])
      = Except.ok (some (PyVal.dict [("correctionVersion", PyVal.int (-5))])) ∧
    ((-5 : Int) < -3) :=
  ⟨rfl, by decide⟩

/-- C5 counterexample: the unparsable-period sentinel is `-10^9`, which is
larger than the parsed year of `"-2000000000"`, so a record with an
unparsable period beats a record with a parseable one. -/
theorem C5_sentinel_counterexample :
    _latest_report
        [PyVal.dict [("period", PyVal.str "abc")],
         PyVal.dict [("period", PyVal.str "-2000000000")]] false
      = Except.ok (some (PyVal.dict [("period", PyVal.str "abc")])) ∧
    pyIntOfStr "abc" = Option.none ∧
    pyIntOfStr "-2000000000" = some (-2000000000) :=
  ⟨rfl, rfl, by decide⟩

/-- C8 counterexample: `_to_num` raises: `float()` of an int too large for a
double raises `OverflowError`, which `_to_num` does not catch. -/
theorem C8_overflow_counterexample :
    _to_num (PyVal.int (10 ^ 400))
      = Except.error (PyErr.overflowError "int too large to convert to float") := rfl

/-! ### Monad reduction helpers -/

theorem bindOk {α β : Type} (a : α) (f : α → Except PyErr β) :
    (Except.ok a >>= f) = f a := rfl

theorem bindErr {α β : Type} (e : PyErr) (f : α → Except PyErr β) :
    ((Except.error e : Except PyErr α) >>= f) = Except.error e := rfl

/-! ### Claim theorems: error handling of `resolve` (C6, C9) -/

/-- C6: whenever `totalElements` is 0, `resolve_org_from_search` raises the
NotFound `ValueError`, regardless of the `content` sequence. -/
theorem C6_zero_total_not_found (resp : List (String × PyVal)) (query : Option String)
    (h : dictGet resp "totalElements" = some (PyVal.int 0)) :
    resolve_org_from_search resp query
      = Except.error (PyErr.valueError "No organizations found for the given query") := by
  simp [resolve_org_from_search, h, pyEqInt]

theorem C6_zero_total_witness :
    resolve_org_from_search
        [("totalElements", PyVal.int 0),
         ("content", PyVal.list [PyVal.dict [("id", PyVal.int 1)]])] (some "x")
      = Except.error (PyErr.valueError "No organizations found for the given query") :=
  C6_zero_total_not_found _ _ rfl

/-- C9: a search response without a `totalElements` key defaults the count to
0 and raises the NotFound `ValueError`, even when `content` is non-empty —
resolution is decided by `totalElements` alone, never by `len(content)`. -/
theorem C9_missing_total_not_found (resp : List (String × PyVal)) (query : Option String)
    (h : dictGet resp "totalElements" = Option.none) :
    resolve_org_from_search resp query
      = Except.error (PyErr.valueError "No organizations found for the given query") := by
  simp [resolve_org_from_search, h, pyEqInt]

theorem C9_missing_total_witness :
    resolve_org_from_search
        [("content", PyVal.list [PyVal.dict [("id", PyVal.int 1)],
                                 PyVal.dict [("id", PyVal.int 2)]])] (some "x")
      = Except.error (PyErr.valueError "No organizations found for the given query") :=
  C9_missing_total_not_found _ _ rfl

/-! ### Claim theorems: year extraction (C1) -/

/-- C1 (amended): a missing `period` key degrades to year 0 through the `"0"`
default, but a present `period` whose string form is not integer-parseable
raises `ValueError` to the caller — parse failures on the period field are not
degraded once a report is selected. -/
theorem C1_period_amended :
    (∀ kvs, dictGet kvs "period" = Option.none → dictGet kvs "typeCorrections" = Option.none →
       kvs ≠ [] →
       extract_last_year_revenue_profit [PyVal.dict kvs] false
         = Except.ok (some (0, Option.none, Option.none))) ∧
    (∀ kvs s, dictGet kvs "period" = some (PyVal.str s) → pyIntOfStr s = Option.none →
       extract_last_year_revenue_profit [PyVal.dict kvs] false
         = Except.error (PyErr.valueError (intErrMsg s))) := by
  constructor
  · intro kvs h1 h2 h3
    cases kvs with
    | nil => exact absurd rfl h3
    | cons a l =>
      simp [extract_last_year_revenue_profit, _latest_report, pyTruthy, pyGet, h1, h2,
            py_int_str, _best_correction, pySeq, bestCorrLoop, bindOk, bindErr, pyStr,
            show pyIntOfStr "0" = some 0 from rfl]
  · intro kvs s h1 h2
    cases kvs with
    | nil => simp [dictGet] at h1
    | cons a l =>
      simp [extract_last_year_revenue_profit, _latest_report, pyTruthy, pyGet, h1,
            py_int_str, pyStr, h2, bindOk, bindErr]

theorem C1_period_witness :
    extract_last_year_revenue_profit [PyVal.dict [("x", PyVal.int 1)]] false
      = Except.ok (some (0, Option.none, Option.none)) ∧
    extract_last_year_revenue_profit [PyVal.dict [("period", PyVal.str "20x4")]] false
      = Except.error (PyErr.valueError (intErrMsg "20x4")) :=
  ⟨C1_period_amended.1 [("x", PyVal.int 1)] rfl rfl (List.cons_ne_nil _ _),
   C1_period_amended.2 [("period", PyVal.str "20x4")] "20x4" rfl rfl⟩

/-! ### Claim theorems: numeric field parsing (C3, C8) -/

/-- C3 (amended): `_to_num` never raises except on an int whose magnitude
reaches the double-overflow bound; on every other value the extracted figure
is a float (possibly non-finite) or absent. -/
theorem C3_to_num_total (v : PyVal)
    (h : ∀ n : Int, v = PyVal.int n → n.natAbs < ovfBound) :
    ∃ r : Option PyFloat, _to_num v = Except.ok r := by
  cases v with
  | int n =>
    exact ⟨some (PyFloat.finite (n : ℚ)),
      by simp [_to_num, pyFloatOfInt, h n rfl, Except.map]⟩
  | str s =>
    refine ⟨pyFloatOfStr s, ?_⟩
    by_cases hs : s = ""
    · subst hs; rfl
    · simp [_to_num, hs]
  | none => exact ⟨Option.none, rfl⟩
  | bool b => exact ⟨some (PyFloat.finite (if b then 1 else 0)), rfl⟩
  | float f => exact ⟨some f, rfl⟩
  | list xs => exact ⟨Option.none, rfl⟩
  | dict kvs => exact ⟨Option.none, rfl⟩

theorem C3_to_num_witness :
    ∃ r : Option PyFloat, _to_num (PyVal.str "abc") = Except.ok r :=
  C3_to_num_total (PyVal.str "abc") (fun _ h => nomatch h)

/-- C8 (amended): full case analysis of `_to_num` — empty string and `None`
map to absent; bools and in-range ints map to their float value, but an int at
the double-overflow bound raises `OverflowError`; floats pass through; a
non-empty string maps to its `float()` parse (absent when unparseable); lists
and dicts map to absent. -/
theorem C8_to_num_cases :
    _to_num (PyVal.str "") = Except.ok Option.none ∧
    _to_num PyVal.none = Except.ok Option.none ∧
    (∀ b, _to_num (PyVal.bool b)
        = Except.ok (some (PyFloat.finite (if b then 1 else 0)))) ∧
    (∀ n : Int, n.natAbs < ovfBound →
       _to_num (PyVal.int n) = Except.ok (some (PyFloat.finite (n : ℚ)))) ∧
    (∀ n : Int, ovfBound ≤ n.natAbs →
       _to_num (PyVal.int n)
         = Except.error (PyErr.overflowError "int too large to convert to float")) ∧
    (∀ f, _to_num (PyVal.float f) = Except.ok (some f)) ∧
    (∀ s, s ≠ "" → _to_num (PyVal.str s) = Except.ok (pyFloatOfStr s)) ∧
    (∀ xs, _to_num (PyVal.list xs) = Except.ok Option.none) ∧
    (∀ kvs, _to_num (PyVal.dict kvs) = Except.ok Option.none) := by
  refine ⟨rfl, rfl, fun b => rfl, fun n hn => ?_, fun n hn => ?_, fun f => rfl,
    fun s hs => ?_, fun xs => rfl, fun kvs => rfl⟩
  · simp [_to_num, pyFloatOfInt, hn, Except.map]
  · simp [_to_num, pyFloatOfInt, Nat.not_lt.mpr hn, Except.map]
  · simp [_to_num, hs]

theorem C8_to_num_witness :
    _to_num (PyVal.int 123) = Except.ok (some (PyFloat.finite (123 : ℚ))) ∧
    _to_num (PyVal.str "123.5") = Except.ok (pyFloatOfStr "123.5") :=
  ⟨by
    have h := C8_to_num_cases.2.2.2.1 123 (by decide)
    simpa using h,
   C8_to_num_cases.2.2.2.2.2.2.1 "123.5" (by decide)⟩

/-! ### Claim theorems: latest-report selection (C5) -/

theorem foldPick_mem : ∀ (rest : List PyVal) (r : PyVal),
    rest.foldl pickPeriod r ∈ r :: rest := by
  intro rest
  induction rest with
  | nil => intro r; exact List.mem_cons_self r []
  | cons x xs ih =>
    intro r
    simp only [List.foldl_cons]
    rcases List.mem_cons.mp (ih (pickPeriod r x)) with h1 | h1
    · rw [h1]
      unfold pickPeriod
      split
      · exact List.mem_cons_of_mem _ (List.mem_cons_self _ _)
      · exact List.mem_cons_self _ _
    · exact List.mem_cons_of_mem _ (List.mem_cons_of_mem _ h1)

theorem key_le_pick_left (r x : PyVal) :
    keyByPeriod r ≤ keyByPeriod (pickPeriod r x) := by
  unfold pickPeriod
  split
  · exact le_of_lt (by assumption)
  · exact le_refl _

theorem key_le_pick_right (r x : PyVal) :
    keyByPeriod x ≤ keyByPeriod (pickPeriod r x) := by
  unfold pickPeriod
  split
  · exact le_refl _
  · exact le_of_not_lt (by assumption)

theorem foldPick_le : ∀ (rest : List PyVal) (r y : PyVal), y ∈ r :: rest →
    keyByPeriod y ≤ keyByPeriod (rest.foldl pickPeriod r) := by
  intro rest
  induction rest with
  | nil =>
    intro r y hy
    rcases List.mem_cons.mp hy with h | h
    · rw [h]; exact le_refl _
    · exact absurd h (List.not_mem_nil y)
  | cons x xs ih =>
    intro r y hy
    simp only [List.foldl_cons]
    have hself := ih (pickPeriod r x) (pickPeriod r x) (List.mem_cons_self _ _)
    rcases List.mem_cons.mp hy with h | h
    · exact le_trans (h ▸ key_le_pick_left r x) hself
    · rcases List.mem_cons.mp h with h2 | h2
      · exact le_trans (h2 ▸ key_le_pick_right r x) hself
      · exact ih (pickPeriod r x) y (List.mem_cons_of_mem _ h2)

/-- C5 (amended): `_latest_report` on an empty sequence is absent, not an
error; on a non-empty sequence with the default ordering it returns a member
whose key — the integer parsed from `str(period)`, `-10^9` when unparsable —
is maximal; consequently a record with the unparsable-period sentinel never
beats a record whose parsed year exceeds `-10^9` (a parseable period at or
below the sentinel, however, can lose to an unparsable one). -/
theorem C5_latest_report_amended :
    (∀ p, _latest_report [] p = Except.ok Option.none) ∧
    (∀ r rs, ∃ x, _latest_report (r :: rs) false = Except.ok (some x) ∧ x ∈ r :: rs ∧
       ∀ y ∈ r :: rs, keyByPeriod y ≤ keyByPeriod x) ∧
    (∀ r rs x, r ∈ rs → -(10 ^ 9) < keyByPeriod r →
       _latest_report rs false = Except.ok (some x) → -(10 ^ 9) < keyByPeriod x) := by
  refine ⟨fun p => rfl, fun r rs => ⟨rs.foldl pickPeriod r, rfl, foldPick_mem rs r,
    fun y hy => foldPick_le rs r y hy⟩, fun r rs x hr hkey hres => ?_⟩
  cases rs with
  | nil => exact absurd hr (List.not_mem_nil r)
  | cons a l =>
    simp only [_latest_report, Bool.false_eq_true, if_false, Except.ok.injEq,
      Option.some.injEq] at hres
    exact lt_of_lt_of_le hkey (hres ▸ foldPick_le l a r hr)

theorem C5_latest_report_witness :
    _latest_report [PyVal.dict [("period", PyVal.str "2022")],
                    PyVal.dict [("period", PyVal.str "2024")],
                    PyVal.dict [("period", PyVal.str "2023")]] false
      = Except.ok (some (PyVal.dict [("period", PyVal.str "2024")])) ∧
    -(10 ^ 9) < keyByPeriod (PyVal.dict [("period", PyVal.str "2024")]) :=
  ⟨rfl,
   C5_latest_report_amended.2.2 (PyVal.dict [("period", PyVal.str "2024")])
     [PyVal.dict [("period", PyVal.str "2022")],
      PyVal.dict [("period", PyVal.str "2024")],
      PyVal.dict [("period", PyVal.str "2023")]]
     (PyVal.dict [("period", PyVal.str "2024")])
     (List.mem_cons_of_mem _ (List.mem_cons_self _ _)) (by decide) rfl⟩

/-! ### Claim theorems: query disambiguation (C2, C7) -/

theorem clean_html_tot (v : PyVal) (h : (!pyTruthy v || isStr v) = true) :
    _clean_html v = Except.ok (cleanHtmlTot v) := by
  by_cases ht : pyTruthy v = true
  · have hs : isStr v = true := by simpa [ht] using h
    cases v <;> simp_all [isStr, _clean_html, cleanHtmlTot]
  · have hf : pyTruthy v = false := by simpa using ht
    simp [_clean_html, cleanHtmlTot, hf]

theorem findExact_clean : ∀ (orgs : List PyVal) (qc : String),
    (∀ org ∈ orgs, orgClean org = true) →
    findExact orgs qc = Except.ok (orgs.find? (fun o => normShort o == qc)) := by
  intro orgs
  induction orgs with
  | nil => intro qc _; rfl
  | cons org rest ih =>
    intro qc h
    have ho : orgClean org = true := h org (List.mem_cons_self _ _)
    have hrest : ∀ o ∈ rest, orgClean o = true :=
      fun o hm => h o (List.mem_cons_of_mem _ hm)
    cases org with
    | dict kvs =>
      have hsn : (!pyTruthy (dGetD (PyVal.dict kvs) "shortName" (PyVal.str "")) ||
          isStr (dGetD (PyVal.dict kvs) "shortName" (PyVal.str ""))) = true := by
        simpa [orgClean, isDict] using ho
      simp only [findExact, pyGet, bindOk]
      rw [show ((dictGet kvs "shortName").getD (PyVal.str ""))
            = dGetD (PyVal.dict kvs) "shortName" (PyVal.str "") from rfl,
          clean_html_tot _ hsn, bindOk]
      by_cases hc : clean_non_letters_str (cleanHtmlTot
          (dGetD (PyVal.dict kvs) "shortName" (PyVal.str ""))) = qc
      · simp [hc, List.find?, normShort]
      · simp only [hc, if_false, List.find?]
        rw [show (normShort (PyVal.dict kvs) == qc) = false by
              simp [normShort, hc]]
        exact ih qc hrest
    | none => simp [orgClean, isDict] at ho
    | bool b => simp [orgClean, isDict] at ho
    | int n => simp [orgClean, isDict] at ho
    | float f => simp [orgClean, isDict] at ho
    | str s => simp [orgClean, isDict] at ho
    | list xs => simp [orgClean, isDict] at ho

theorem mapDetails_clean : ∀ (orgs : List PyVal),
    (∀ org ∈ orgs, isDict org = true) →
    mapDetailsE orgs = Except.ok (orgs.map orgDetail) := by
  intro orgs
  induction orgs with
  | nil => intro _; rfl
  | cons org rest ih =>
    intro h
    have ho := h org (List.mem_cons_self _ _)
    cases org <;> simp [isDict] at ho
    case dict kvs =>
      simp [mapDetailsE, orgDetailE, pyGet, bindOk,
        ih (fun o hm => h o (List.mem_cons_of_mem _ hm)), orgDetail, dGetD]

/-- C2 (amended): with more than one match and a non-empty query, the query is
normalized with `_clean_non_letters` ONLY (it is never passed through
`_clean_html`), while each candidate's `shortName` is cleaned from HTML and
then from non-letters; the first candidate (in content order) whose normalized
`shortName` equals the letter-filtered query is returned. -/
theorem C2_resolve_first_match (resp : List (String × PyVal)) (orgs : List PyVal)
    (total : PyVal) (q : String) (org : PyVal)
    (hc : dictGet resp "content" = some (PyVal.list orgs))
    (ht : dictGet resp "totalElements" = some total)
    (h0 : pyEqInt total 0 = false)
    (h1 : pyGtInt total 1 = Except.ok true)
    (hq : q ≠ "")
    (hclean : ∀ o ∈ orgs, orgClean o = true)
    (hfind : orgs.find? (fun o => normShort o == clean_non_letters_str q) = some org) :
    resolve_org_from_search resp (some q) = Except.ok org := by
  simp [resolve_org_from_search, hc, ht, h0, h1, hq, pySeq, bindOk,
    findExact_clean orgs _ hclean, hfind]

theorem C2_resolve_first_match_witness :
    resolve_org_from_search
        [("totalElements", PyVal.int 2),
         ("content", PyVal.list [PyVal.dict [("shortName", PyVal.str "<b>ЗАО</b>")],
                                 PyVal.dict [("shortName", PyVal.str "<b>ООО</b>")]])]
        (some "ооо")
      = Except.ok (PyVal.dict [("shortName", PyVal.str "<b>ООО</b>")]) :=
  C2_resolve_first_match _ _ _ _ _ rfl rfl rfl rfl (by decide)
    (fun o ho => by
      rcases List.mem_cons.mp ho with h | h
      · subst h; rfl
      · rcases List.mem_cons.mp h with h2 | h2
        · subst h2; rfl
        · exact absurd h2 (List.not_mem_nil o))
    rfl

/-- C7: with more than one match, a supplied query, and no candidate whose
normalized `shortName` equals the normalized query, resolution fails with
`AmbiguousSearchError` carrying `totalElements` and the rendered (id, inn,
shortName) of at most the first five candidates. -/
theorem C7_resolve_ambiguous (resp : List (String × PyVal)) (orgs : List PyVal)
    (total : PyVal) (q : String) (g : Bool)
    (hc : dictGet resp "content" = some (PyVal.list orgs))
    (ht : dictGet resp "totalElements" = some total)
    (h0 : pyEqInt total 0 = false)
    (h1 : pyGtInt total 1 = Except.ok true)
    (h5 : pyGtInt total 5 = Except.ok g)
    (hq : q ≠ "")
    (hclean : ∀ o ∈ orgs, orgClean o = true)
    (hfind : orgs.find? (fun o => normShort o == clean_non_letters_str q) = Option.none) :
    resolve_org_from_search resp (some q)
      = Except.error (PyErr.ambiguousSearchError
          (ambMsg total ((orgs.take 5).map orgDetail) g)) := by
  have hdict : ∀ o ∈ orgs.take 5, isDict o = true := by
    intro o hm
    have := hclean o (List.take_subset _ _ hm)
    simp [orgClean, Bool.and_eq_true] at this
    exact this.1
  simp [resolve_org_from_search, hc, ht, h0, h1, h5, hq, pySeq, bindOk,
    findExact_clean orgs _ hclean, hfind, mapDetails_clean _ hdict]

theorem C7_resolve_ambiguous_witness :
    resolve_org_from_search
        [("totalElements", PyVal.int 2),
         ("content", PyVal.list
            [PyVal.dict [("id", PyVal.int 1), ("inn", PyVal.str "7735146464"),
                         ("shortName", PyVal.str "А")],
             PyVal.dict [("id", PyVal.int 2), ("inn", PyVal.str "7735146465"),
                         ("shortName", PyVal.str "Б")]])]
        (some "нет")
      = Except.error (PyErr.ambiguousSearchError
          (ambMsg (PyVal.int 2)
            (([PyVal.dict [("id", PyVal.int 1), ("inn", PyVal.str "7735146464"),
                           ("shortName", PyVal.str "А")],
               PyVal.dict [("id", PyVal.int 2), ("inn", PyVal.str "7735146465"),
                           ("shortName", PyVal.str "Б")]].take 5).map orgDetail)
            false)) :=
  C7_resolve_ambiguous _ _ _ _ _ rfl rfl rfl rfl rfl (by decide)
    (fun o ho => by
      rcases List.mem_cons.mp ho with h | h
      · subst h; rfl
      · rcases List.mem_cons.mp h with h2 | h2
        · subst h2; rfl
        · exact absurd h2 (List.not_mem_nil o))
    rfl

/-! ### Claim theorems: best correction selection (C4) -/

theorem stepP_none (st : Option PyVal × Int) (tc : PyVal)
    (hw : wrapCorr tc = Option.none) : stepP st tc = st := by
  unfold stepP; rw [hw]

theorem stepP_ver (st : Option PyVal × Int) (tc corr : PyVal) (n : Int)
    (hw : wrapCorr tc = some corr) (hv : verOf corr = some n) :
    stepP st tc
      = if st.2 ≤ n then (some corr, n)
        else if st.1.isNone then (some corr, st.2) else st := by
  unfold stepP; rw [hw]; dsimp only; rw [hv]

theorem stepP_nover (st : Option PyVal × Int) (tc corr : PyVal)
    (hw : wrapCorr tc = some corr) (hv : verOf corr = Option.none) :
    stepP st tc = if st.1.isNone then (some corr, st.2) else st := by
  unfold stepP; rw [hw]; dsimp only; rw [hv]

theorem goodVer_some (tc : PyVal) (n : Int) (h : goodVer tc = some n) :
    ∃ corr, wrapCorr tc = some corr ∧ verOf corr = some n ∧ -1 ≤ n := by
  unfold goodVer at h
  rcases Option.bind_eq_some.mp h with ⟨c, hw, h2⟩
  rcases Option.bind_eq_some.mp h2 with ⟨k, hv, h3⟩
  by_cases hk : (-1 : Int) ≤ k
  · rw [if_pos hk] at h3
    obtain rfl : k = n := Option.some.inj h3
    exact ⟨c, hw, hv, hk⟩
  · rw [if_neg hk] at h3; cases h3

theorem goodVer_ver_neg (tc corr : PyVal) (n : Int)
    (hw : wrapCorr tc = some corr) (hv : verOf corr = some n)
    (h : goodVer tc = Option.none) : ¬ (-1 : Int) ≤ n := by
  intro hk
  unfold goodVer at h
  rw [hw, Option.some_bind, hv, Option.some_bind, if_pos hk] at h
  cases h

theorem maxFold_const : ∀ (l : List Int) (a : Int), (∀ v ∈ l, v ≤ a) → l.foldl max a = a := by
  intro l
  induction l with
  | nil => intro a _; rfl
  | cons x xs ih =>
    intro a h
    rw [List.foldl_cons, max_eq_left (h x (List.mem_cons_self _ _))]
    exact ih a (fun v hv => h v (List.mem_cons_of_mem _ hv))

theorem maxFold_eq : ∀ (l : List Int) (a m : Int), m ∈ l → (∀ v ∈ l, v ≤ m) → a ≤ m →
    l.foldl max a = m := by
  intro l
  induction l with
  | nil => intro a m hm _ _; exact absurd hm (List.not_mem_nil m)
  | cons x xs ih =>
    intro a m hm hle ha
    rw [List.foldl_cons]
    rcases List.mem_cons.mp hm with h | h
    · subst h
      rw [max_eq_right ha]
      exact maxFold_const xs m (fun v hv => hle v (List.mem_cons_of_mem _ hv))
    · exact ih (max a x) m h (fun v hv => hle v (List.mem_cons_of_mem _ hv))
        (max_le ha (hle x (List.mem_cons_self _ _)))

theorem goodVers_cons_none (tc : PyVal) (rest : List PyVal)
    (h : goodVer tc = Option.none) : goodVers (tc :: rest) = goodVers rest := by
  simp [goodVers, List.filterMap_cons, h]

theorem goodVers_cons_some (tc : PyVal) (rest : List PyVal) (n : Int)
    (h : goodVer tc = some n) : goodVers (tc :: rest) = n :: goodVers rest := by
  simp [goodVers, List.filterMap_cons, h]

theorem goodVers_ge (xs : List PyVal) : ∀ v ∈ goodVers xs, -1 ≤ v := by
  intro v hv
  rcases List.mem_filterMap.mp hv with ⟨tc, _, hg⟩
  obtain ⟨c, _, _, hge⟩ := goodVer_some tc v hg
  exact hge

theorem stepFold_strong : ∀ (xs : List PyVal) (st : Option PyVal × Int) (c : PyVal),
    -1 ≤ st.2 → st.1 = some c → verOf c = some st.2 →
    (∃ c2, (xs.foldl stepP st).1 = some c2 ∧
       verOf c2 = some (xs.foldl stepP st).2) ∧
    (xs.foldl stepP st).2 = (goodVers xs).foldl max st.2 := by
  intro xs
  induction xs with
  | nil => intro st c h1 h2 h3; exact ⟨⟨c, h2, h3⟩, rfl⟩
  | cons tc rest ih =>
    intro st c h1 h2 h3
    rw [List.foldl_cons]
    cases hw : wrapCorr tc with
    | none =>
      have hg : goodVer tc = Option.none := by simp [goodVer, hw]
      rw [stepP_none st tc hw, goodVers_cons_none tc rest hg]
      exact ih st c h1 h2 h3
    | some corr =>
      cases hv : verOf corr with
      | none =>
        have hg : goodVer tc = Option.none := by simp [goodVer, hw, hv]
        have hstep : stepP st tc = st := by
          rw [stepP_nover st tc corr hw hv, h2]; rfl
        rw [hstep, goodVers_cons_none tc rest hg]
        exact ih st c h1 h2 h3
      | some n =>
        by_cases hle : st.2 ≤ n
        · have hn1 : (-1 : Int) ≤ n := le_trans h1 hle
          have hg : goodVer tc = some n := by
            simp [goodVer, hw, hv, hn1]
          have hstep : stepP st tc = (some corr, n) := by
            rw [stepP_ver st tc corr n hw hv, if_pos hle]
          rw [hstep, goodVers_cons_some tc rest n hg, List.foldl_cons,
            max_eq_right hle]
          exact ih (some corr, n) corr hn1 rfl hv
        · have hstep : stepP st tc = st := by
            rw [stepP_ver st tc corr n hw hv, if_neg hle, h2]; rfl
          by_cases hn1 : (-1 : Int) ≤ n
          · have hg : goodVer tc = some n := by
              simp [goodVer, hw, hv, hn1]
            rw [hstep, goodVers_cons_some tc rest n hg, List.foldl_cons,
              max_eq_left (le_of_not_le hle)]
            exact ih st c h1 h2 h3
          · have hg : goodVer tc = Option.none := by
              simp [goodVer, hw, hv, hn1]
            rw [hstep, goodVers_cons_none tc rest hg]
            exact ih st c h1 h2 h3

theorem stepFold_start : ∀ (xs : List PyVal) (st : Option PyVal × Int),
    st.2 = -1 → goodVers xs ≠ [] →
    (∃ c2, (xs.foldl stepP st).1 = some c2 ∧
       verOf c2 = some (xs.foldl stepP st).2) ∧
    (xs.foldl stepP st).2 = (goodVers xs).foldl max (-1) := by
  intro xs
  induction xs with
  | nil => intro st _ h2; exact absurd rfl h2
  | cons tc rest ih =>
    intro st h1 h2
    rw [List.foldl_cons]
    cases hg : goodVer tc with
    | some n =>
      obtain ⟨corr, hw, hv, hn1⟩ := goodVer_some tc n hg
      have hle : st.2 ≤ n := by rw [h1]; exact hn1
      have hstep : stepP st tc = (some corr, n) := by
        rw [stepP_ver st tc corr n hw hv, if_pos hle]
      rw [hstep, goodVers_cons_some tc rest n hg, List.foldl_cons,
        max_eq_right hn1]
      exact stepFold_strong rest (some corr, n) corr hn1 rfl hv
    | none =>
      have h2r : goodVers rest ≠ [] := by
        rwa [goodVers_cons_none tc rest hg] at h2
      have hsnd : (stepP st tc).2 = -1 := by
        cases hw : wrapCorr tc with
        | none => rw [stepP_none st tc hw]; exact h1
        | some corr =>
          cases hv : verOf corr with
          | none =>
            rw [stepP_nover st tc corr hw hv]
            split
            · exact h1
            · exact h1
          | some n =>
            have hneg := goodVer_ver_neg tc corr n hw hv hg
            have hnle : ¬ st.2 ≤ n := by rw [h1]; exact hneg
            rw [stepP_ver st tc corr n hw hv, if_neg hnle]
            split
            · exact h1
            · exact h1
      rw [goodVers_cons_none tc rest hg]
      exact ih (stepP st tc) hsnd h2r

theorem stepFold_fallback : ∀ (xs : List PyVal) (st : Option PyVal × Int),
    st.2 = -1 → goodVers xs = [] →
    (xs.foldl stepP st).1
      = (match st.1 with
         | some c => some c
         | Option.none => xs.findSome? wrapCorr) := by
  intro xs
  induction xs with
  | nil =>
    intro st _ _
    cases hst : st.1 <;> simp [hst]
  | cons tc rest ih =>
    intro st h1 h2
    rw [List.foldl_cons]
    cases hg : goodVer tc with
    | some n =>
      rw [goodVers_cons_some tc rest n hg] at h2
      cases h2
    | none =>
      have h2r : goodVers rest = [] := by
        rwa [goodVers_cons_none tc rest hg] at h2
      cases hw : wrapCorr tc with
      | none =>
        rw [stepP_none st tc hw, List.findSome?_cons, hw]
        exact ih st h1 h2r
      | some corr =>
        have hstep : stepP st tc = if st.1.isNone then (some corr, st.2) else st := by
          cases hv : verOf corr with
          | none => exact stepP_nover st tc corr hw hv
          | some n =>
            have hneg := goodVer_ver_neg tc corr n hw hv hg
            have hnle : ¬ st.2 ≤ n := by rw [h1]; exact hneg
            rw [stepP_ver st tc corr n hw hv, if_neg hnle]
        cases hst : st.1 with
        | some c =>
          have : stepP st tc = st := by rw [hstep, hst]; rfl
          rw [this, ih st h1 h2r, hst]
        | none =>
          have hstep2 : stepP st tc = (some corr, st.2) := by
            rw [hstep, hst]; rfl
          rw [hstep2, List.findSome?_cons, hw]
          have := ih (some corr, st.2) h1 h2r
          simpa using this

theorem pyGet_dict (v : PyVal) (k : String) (d : PyVal) (h : isDict v = true) :
    pyGet v k d = Except.ok (dGetD v k d) := by
  cases v <;> simp_all [isDict, pyGet, dGetD]

theorem bestCorrLoop_clean : ∀ (xs : List PyVal) (st : Option PyVal × Int),
    (∀ tc ∈ xs, tcClean tc = true) →
    bestCorrLoop xs st = Except.ok (xs.foldl stepP st) := by
  intro xs
  induction xs with
  | nil => intro st _; rfl
  | cons tc rest ih =>
    intro st h
    have htc := h tc (List.mem_cons_self _ _)
    have hrest : ∀ o ∈ rest, tcClean o = true :=
      fun o hm => h o (List.mem_cons_of_mem _ hm)
    have htcd : isDict (if pyTruthy tc then tc else PyVal.dict []) = true := by
      cases htr : pyTruthy tc
      · simp [isDict]
      · simp only [tcClean, htr, Bool.not_true, Bool.false_or,
          Bool.and_eq_true] at htc
        simp only [if_true]
        exact htc.1
    simp only [bestCorrLoop, List.foldl_cons]
    rw [pyGet_dict _ _ _ htcd, bindOk]
    by_cases hct : pyTruthy (dGetD (if pyTruthy tc then tc else PyVal.dict [])
        "correction" PyVal.none) = true
    · have hw : wrapCorr tc
          = some (dGetD (if pyTruthy tc then tc else PyVal.dict [])
              "correction" PyVal.none) := by
        unfold wrapCorr; rw [if_pos hct]
      have hcd : isDict (dGetD (if pyTruthy tc then tc else PyVal.dict [])
          "correction" PyVal.none) = true := by
        simp only [tcClean, hw, Bool.and_eq_true] at htc
        exact htc.2
      rw [if_neg (by simp [hct])]
      rw [pyGet_dict _ _ _ hcd, bindOk]
      cases hv : pyAsInt (dGetD (dGetD (if pyTruthy tc then tc else PyVal.dict [])
          "correction" PyVal.none) "correctionVersion" PyVal.none) with
      | some n =>
        dsimp only
        rw [stepP_ver st tc _ n hw hv]
        by_cases hle : st.2 ≤ n
        · rw [if_pos hle, if_pos hle]
          exact ih _ hrest
        · rw [if_neg hle, if_neg hle]
          by_cases hio : st.1.isNone = true
          · rw [if_pos hio, if_pos hio]
            exact ih _ hrest
          · rw [if_neg hio, if_neg hio]
            exact ih _ hrest
      | none =>
        dsimp only
        rw [stepP_nover st tc _ hw hv]
        by_cases hio : st.1.isNone = true
        · rw [if_pos hio, if_pos hio]
          exact ih _ hrest
        · rw [if_neg hio, if_neg hio]
          exact ih _ hrest
    · have hcf : pyTruthy (dGetD (if pyTruthy tc then tc else PyVal.dict [])
          "correction" PyVal.none) = false := by
        revert hct
        cases pyTruthy (dGetD (if pyTruthy tc then tc else PyVal.dict [])
          "correction" PyVal.none) <;> simp
      have hw : wrapCorr tc = Option.none := by
        unfold wrapCorr
        rw [if_neg (by simp [hcf])]
      rw [if_pos hcf, stepP_none st tc hw]
      exact ih st hrest

theorem bestCorr_clean_list (tcs : List PyVal) (hne : tcs ≠ [])
    (hclean : ∀ tc ∈ tcs, tcClean tc = true) :
    _best_correction (PyVal.list tcs)
      = Except.ok (tcs.foldl stepP (Option.none, -1)).1 := by
  have htr : pyTruthy (PyVal.list tcs) = true := by
    cases tcs with
    | nil => exact absurd rfl hne
    | cons a l => simp [pyTruthy]
  simp only [_best_correction, pySeq]
  rw [if_neg (by simp [htr]), bindOk, bestCorrLoop_clean tcs _ hclean, bindOk]

/-- C4 (amended): `_best_correction` skips wrappers without a truthy
correction; among entries whose `correctionVersion` is an int at least `-1`
(the initial `best_ver`), it picks one carrying the maximal such version; when
no such entry exists, the FIRST wrapper with a truthy correction wins — which
covers both unparseable versions and parseable versions below `-1`, so the
returned correction need not carry the highest version overall; falsy or
all-empty input yields an absent result. -/
theorem C4_best_correction_amended :
    (_best_correction PyVal.none = Except.ok Option.none) ∧
    (_best_correction (PyVal.list []) = Except.ok Option.none) ∧
    (∀ tcs m, (∀ tc ∈ tcs, tcClean tc = true) → m ∈ goodVers tcs →
       (∀ v ∈ goodVers tcs, v ≤ m) →
       ∃ c, _best_correction (PyVal.list tcs) = Except.ok (some c) ∧ verOf c = some m) ∧
    (∀ tcs, (∀ tc ∈ tcs, tcClean tc = true) → goodVers tcs = [] → tcs ≠ [] →
       _best_correction (PyVal.list tcs) = Except.ok (tcs.findSome? wrapCorr)) := by
  refine ⟨rfl, rfl, ?_, ?_⟩
  · intro tcs m hclean hm hmax
    have hne : tcs ≠ [] := by
      rintro rfl
      exact absurd hm (List.not_mem_nil m)
    have hgne : goodVers tcs ≠ [] := by
      intro hnil
      rw [hnil] at hm
      exact absurd hm (List.not_mem_nil m)
    obtain ⟨⟨c2, hc1, hc2⟩, heq⟩ := stepFold_start tcs (Option.none, -1) rfl hgne
    have hm1 : (-1 : Int) ≤ m := goodVers_ge tcs m hm
    have hsnd : (tcs.foldl stepP (Option.none, -1)).2 = m := by
      rw [heq]
      exact maxFold_eq _ _ _ hm hmax hm1
    refine ⟨c2, ?_, ?_⟩
    · rw [bestCorr_clean_list tcs hne hclean, hc1]
    · rw [hc2, hsnd]
  · intro tcs hclean hgnil hne
    rw [bestCorr_clean_list tcs hne hclean,
      stepFold_fallback tcs (Option.none, -1) rfl hgnil]

theorem C4_best_correction_witness :
    ∃ c, _best_correction (PyVal.list
        [PyVal.dict [("correction", PyVal.dict [("correctionVersion", PyVal.int 1)])],
         PyVal.dict [("correction", PyVal.dict [("correctionVersion", PyVal.int 3)])]])
      = Except.ok (some c) ∧ verOf c = some 3 :=
  C4_best_correction_amended.2.2.1
    [PyVal.dict [("correction", PyVal.dict [("correctionVersion", PyVal.int 1)])],
     PyVal.dict [("correction", PyVal.dict [("correctionVersion", PyVal.int 3)])]] 3
    (fun tc htc => by
      rcases List.mem_cons.mp htc with h | h
      · subst h; rfl
      · rcases List.mem_cons.mp h with h2 | h2
        · subst h2; rfl
        · exact absurd h2 (List.not_mem_nil tc))
    (by decide) (by decide)
